import Mathlib

/-!
Verification of the Reflex inbound protocol engine.

The definitions below are shallow embeddings of the Go sources:
`proxy/reflex/inbound/session.go` (frame codec, replay set),
`proxy/reflex/inbound/handshake.go` (timestamp window, fallback),
`proxy/reflex/inbound/stats.go` (Kolmogorov-Smirnov statistic) and the
traffic-morphing module (profiles, control frames, observation profiles).

Byte streams are lists of naturals; machine integers are Nat/Int with
explicit reductions where the code truncates.  The ChaCha20-Poly1305 AEAD
and SHA-256 come from external libraries, so they are abstracted exactly
as the source does through its `cipherAEAD` interface: an `AEAD` record of
seal/open functions, and a `hash` function parameter standing for
`sha256.Sum256`.  Float64 arithmetic in the KS statistic and the
distribution weights is modelled with exact rationals; every operation
the code performs on floats there (division of small integers, compare,
negate) is exact in both models.
-/

set_option maxRecDepth 100000

namespace Reflex

/-- Byte strings on the wire: lists of naturals (each intended below 256). -/
abbrev Bytes := List Nat

/-- Frame type tag DATA (0x01 in session.go). -/
def FrameTypeData : Nat := 1

/-- Frame type tag PADDING (0x02 in session.go). -/
def FrameTypePadding : Nat := 2

/-- Frame type tag TIMING (0x03 in session.go). -/
def FrameTypeTiming : Nat := 3

/-- Frame type tag CLOSE (0x04 in session.go). -/
def FrameTypeClose : Nat := 4

/-- `maxFramePayloadSize = 65535` from session.go. -/
def maxFramePayloadSize : Nat := 65535

/-- `replayWindowSize = 1000` from session.go. -/
def replayWindowSize : Nat := 1000

/-- Big-endian 16-bit encoding, as `binary.BigEndian.PutUint16` after a
`uint16` conversion (hence the reduction modulo 2^16). -/
def be16 (n : Nat) : Bytes :=
  [n % 65536 / 256, n % 256]

/-- Big-endian 64-bit encoding, as `binary.BigEndian.PutUint64` after a
`uint64` conversion. -/
def be64 (n : Nat) : Bytes :=
  [n % 2 ^ 64 / 2 ^ 56, n % 2 ^ 56 / 2 ^ 48, n % 2 ^ 48 / 2 ^ 40,
   n % 2 ^ 40 / 2 ^ 32, n % 2 ^ 32 / 2 ^ 24, n % 2 ^ 24 / 2 ^ 16,
   n % 2 ^ 16 / 2 ^ 8, n % 2 ^ 8]

/-- `makeNonce` from session.go: 12 bytes, four zero bytes then the
counter big-endian in bytes 4..12. -/
def makeNonce (counter : Nat) : Bytes :=
  [0, 0, 0, 0] ++ be64 counter

/-- The source's `cipherAEAD` interface: seal and open over (nonce,
message) pairs.  `chacha20poly1305.New(key)` produces one such value per
32-byte key; the library itself is external to the repository. -/
structure AEAD where
  Seal : Bytes → Bytes → Bytes
  Open : Bytes → Bytes → Option Bytes

/-- AEAD functional correctness on the nonces the session actually uses:
opening a sealed message with the same counter nonce recovers it.
ChaCha20-Poly1305 has this property for every key. -/
def AEAD.Sound (A : AEAD) : Prop :=
  ∀ c pt, A.Open (makeNonce c) (A.Seal (makeNonce c) pt) = some pt

/-- ChaCha20-Poly1305 ciphertext length: plaintext plus the 16-byte tag. -/
def AEAD.SealLen (A : AEAD) : Prop :=
  ∀ c pt, (A.Seal (makeNonce c) pt).length = pt.length + 16

/-- `Frame` from session.go. -/
structure Frame where
  length : Nat
  type : Nat
  payload : Bytes
deriving DecidableEq

/-- `Session` from session.go: AEAD state, the two direction counters,
and the replay set (Go keeps a hash set plus a FIFO slice; the set is
modelled as a duplicate-free list, membership being all Go uses). -/
structure Session where
  aead : AEAD
  readNonce : Nat
  writeNonce : Nat
  replaySeen : List Bytes
  replayOrder : List Bytes

/-- `NewSession` from session.go: zero counters, empty replay state. -/
def NewSession (A : AEAD) : Session :=
  { aead := A, readNonce := 0, writeNonce := 0, replaySeen := [], replayOrder := [] }

/-- `rememberCiphertext` from session.go, with `hash` standing for
`sha256.Sum256`.  Returns false when the hash was already seen; otherwise
records it, evicting the oldest entry when the window exceeds 1000. -/
def rememberCiphertext (hash : Bytes → Bytes) (s : Session) (ct : Bytes) :
    Bool × Session :=
  if hash ct ∈ s.replaySeen then (false, s)
  else if replayWindowSize < (s.replayOrder ++ [hash ct]).length then
    match s.replayOrder ++ [hash ct] with
    | [] => (true, { s with replaySeen := s.replaySeen ++ [hash ct], replayOrder := [] })
    | old :: rest =>
      (true, { s with replaySeen := (s.replaySeen ++ [hash ct]).erase old, replayOrder := rest })
  else
    (true,
      { s with
        replaySeen := s.replaySeen ++ [hash ct]
        replayOrder := s.replayOrder ++ [hash ct] })

/-- The length field of a wire frame: big-endian 16-bit read of the first
two header bytes (`binary.BigEndian.Uint16(header[:2])`). -/
def parseLen (input : Bytes) : Nat :=
  input.getD 0 0 * 256 + input.getD 1 0

/-- `ReadFrame` from session.go over an explicit input byte list.
Returns the result, the session after the call (Go mutates in place, so
failed calls still leave their state changes behind), and the unconsumed
input.  Error strings are the ones the source produces; transport and
AEAD failures keep their library messages abstractly. -/
def ReadFrame (hash : Bytes → Bytes) (s : Session) (input : Bytes) :
    Except String Frame × Session × Bytes :=
  if input.length < 3 then
    ((Except.error (if input.length = 0 then "EOF" else "unexpected EOF")), s, input)
  else
    let length := parseLen input
    let frameType := input.getD 2 0
    let rest := input.drop 3
    if length = 0 ∨ maxFramePayloadSize < length then
      (Except.error "invalid reflex frame length", s, rest)
    else if rest.length < length then
      (Except.error "unexpected EOF", s, [])
    else
      let ct := rest.take length
      let remainder := rest.drop length
      match rememberCiphertext hash s ct with
      | (false, s1) => (Except.error "replay detected", s1, remainder)
      | (true, s1) =>
        let nonce := makeNonce s1.readNonce
        let s2 : Session := { s1 with readNonce := s1.readNonce + 1 }
        match s2.aead.Open nonce ct with
        | none => (Except.error "message authentication failed", s2, remainder)
        | some payload =>
          (Except.ok { length := length, type := frameType, payload := payload }, s2, remainder)

/-- `WriteFrame` from session.go.  On success the emitted wire bytes are
the 3-byte header followed by the ciphertext; on failure nothing has been
written (the source checks the size before its first write), though the
write counter has already advanced, exactly as in the source. -/
def WriteFrame (s : Session) (frameType : Nat) (data : Bytes) :
    Except String Bytes × Session :=
  let nonce := makeNonce s.writeNonce
  let s1 : Session := { s with writeNonce := s.writeNonce + 1 }
  let encrypted := s.aead.Seal nonce data
  if maxFramePayloadSize < encrypted.length then
    (Except.error "frame too large", s1)
  else
    (Except.ok (be16 encrypted.length ++ [frameType] ++ encrypted), s1)

/-- `SendPaddingControl` from the morphing module: rejects target sizes
outside 1..65535, else writes a PADDING frame with the size as u16 BE. -/
def SendPaddingControl (s : Session) (targetSize : Nat) :
    Except String (Bytes × Session) :=
  if targetSize = 0 ∨ 65535 < targetSize then Except.error "invalid target size"
  else
    match WriteFrame s FrameTypePadding (be16 targetSize) with
    | (Except.error e, _) => Except.error e
    | (Except.ok bytes, s1) => Except.ok (bytes, s1)

/-- `SendTimingControl` from the morphing module: rejects non-positive
delays, else writes a TIMING frame with the delay in milliseconds
(`delay.Milliseconds()` truncates the nanosecond duration) as u64 BE. -/
def SendTimingControl (s : Session) (delay : Nat) :
    Except String (Bytes × Session) :=
  if delay = 0 then Except.error "invalid delay"
  else
    match WriteFrame s FrameTypeTiming (be64 (delay / 1000000)) with
    | (Except.error e, _) => Except.error e
    | (Except.ok bytes, s1) => Except.ok (bytes, s1)

/-- The morphing loop of `WriteFrameWithMorphing`.  The profile's
`GetPacketSize`/`GetDelay` draws are abstracted as oracle streams
`sizes`/`delays` indexed by the iteration counter `k` (the source samples
from a weighted distribution with one-shot overrides; any realized draw
sequence is some such stream).  The trace records every `(type,
plaintext)` pair handed to `WriteFrame`, in order; the Go locals
`target`, `chunkSize`, `chunk` are inlined. -/
def writeMorphLoop (s : Session) (sizes delays : Nat → Nat) (k : Nat)
    (remaining : Bytes) : Except String (List (Nat × Bytes) × Session) :=
  if hrem : remaining.length = 0 then Except.ok ([], s)
  else
    match WriteFrame s FrameTypeData
        (remaining.take (min remaining.length
          (if sizes k = 0 then remaining.length else sizes k))) with
    | (Except.error e, _) => Except.error e
    | (Except.ok _, s1) =>
      match SendPaddingControl s1
          (if sizes k = 0 then remaining.length else sizes k) with
      | Except.error e => Except.error e
      | Except.ok (_, s2) =>
        if 0 < delays k then
          match SendTimingControl s2 (delays k) with
          | Except.error e => Except.error e
          | Except.ok (_, s3) =>
            match writeMorphLoop s3 sizes delays (k + 1)
                (remaining.drop (min remaining.length
                  (if sizes k = 0 then remaining.length else sizes k))) with
            | Except.error e => Except.error e
            | Except.ok (tr, s4) =>
              Except.ok ((FrameTypeData,
                remaining.take (min remaining.length
                  (if sizes k = 0 then remaining.length else sizes k))) ::
                (FrameTypePadding,
                  be16 (if sizes k = 0 then remaining.length else sizes k)) ::
                (FrameTypeTiming, be64 (delays k / 1000000)) :: tr, s4)
        else
          match writeMorphLoop s2 sizes delays (k + 1)
              (remaining.drop (min remaining.length
                (if sizes k = 0 then remaining.length else sizes k))) with
          | Except.error e => Except.error e
          | Except.ok (tr, s4) =>
            Except.ok ((FrameTypeData,
              remaining.take (min remaining.length
                (if sizes k = 0 then remaining.length else sizes k))) ::
              (FrameTypePadding,
                be16 (if sizes k = 0 then remaining.length else sizes k)) :: tr, s4)
termination_by remaining.length
decreasing_by
  all_goals
    rw [List.length_drop]
    rcases Nat.eq_zero_or_pos (sizes k) with h0 | h0
    · rw [dif_pos h0]
      omega
    · rw [dif_neg (Nat.pos_iff_ne_zero.mp h0)]
      omega

/-- `WriteFrameWithMorphing` from session.go: for non-DATA frames or a
session without a profile it is a plain `WriteFrame`; otherwise the
chunking loop.  `hasProfile` models whether `s.profile` is nil. -/
def WriteFrameWithMorphing (s : Session) (hasProfile : Bool)
    (sizes delays : Nat → Nat) (frameType : Nat) (data : Bytes) :
    Except String (List (Nat × Bytes) × Session) :=
  if frameType ≠ FrameTypeData ∨ hasProfile = false then
    match WriteFrame s frameType data with
    | (Except.error e, _) => Except.error e
    | (Except.ok _, s1) => Except.ok ([(frameType, data)], s1)
  else
    writeMorphLoop s sizes delays 0 data

/-- Splitting a byte string into consecutive chunks of `t` bytes (the
last one shorter), following the spec's description of the morphing
chunking; compared against the loop's trace below. -/
def chunksOf (t : Nat) (data : Bytes) : List Bytes :=
  if hd : data.length = 0 then []
  else if ht : t = 0 then [data]
  else data.take t :: chunksOf t (data.drop t)
termination_by data.length
decreasing_by
  rw [List.length_drop]
  omega

/-- The per-claim trace the spec describes for morphing with a sampled
size `t` and sampled delay `d` (in nanoseconds): each DATA chunk followed
by a PADDING frame carrying `t` as u16 BE and, when the delay is
positive, a TIMING frame carrying the delay in milliseconds as u64 BE. -/
def morphTraceSpec (t d : Nat) (data : Bytes) : List (Nat × Bytes) :=
  (chunksOf t data).flatMap (fun c =>
    (FrameTypeData, c) :: (FrameTypePadding, be16 t) ::
      (if 0 < d then [(FrameTypeTiming, be64 (d / 1000000))] else []))

/-- The replay-state invariant of a session: the FIFO list holds at most
1000 distinct hashes, the hash set is duplicate-free, and set and FIFO
list hold exactly the same elements. -/
def ReplayInv (s : Session) : Prop :=
  s.replayOrder.length ≤ replayWindowSize ∧
  s.replayOrder.Nodup ∧ s.replaySeen.Nodup ∧
  ∀ x, x ∈ s.replaySeen ↔ x ∈ s.replayOrder

/-- `handshakeSkew = 5 * time.Minute` from handshake.go, in seconds. -/
def handshakeSkew : Int := 300

/-- `validateHandshakeTimestamp` from handshake.go at second granularity:
`time.Unix(ts, 0)` must lie in `[now - skew, now + skew]`. -/
def validateHandshakeTimestamp (now ts : Int) : Except String Unit :=
  if ts < now - handshakeSkew ∨ now + handshakeSkew < ts then
    Except.error "reflex handshake timestamp out of range"
  else Except.ok ()

/-- What `processHandshake` does with the timestamp check's outcome. -/
inductive HandshakeAction where
  | forbiddenThenFallback
  | proceed
deriving DecidableEq

/-- The first gate of `processHandshake` (handshake.go): a failed
timestamp validation answers HTTP 403 and hands the connection to the
fallback; otherwise the handshake proceeds to the nonce check. -/
def processHandshakeTimestampGate (now ts : Int) : HandshakeAction :=
  match validateHandshakeTimestamp now ts with
  | Except.error _ => HandshakeAction.forbiddenThenFallback
  | Except.ok _ => HandshakeAction.proceed

/-- `FallbackConfig` (config.go): the local destination port. -/
structure FallbackConfig where
  dest : Nat
deriving DecidableEq

/-- The error `handleFallback` returns when no fallback is configured. -/
def fallbackNotConfiguredMsg : String :=
  "reflex handshake not matched and fallback is not configured"

/-- The immediate outcome of `handleFallback`: either an error return,
together with the bytes it wrote to the client connection before
returning, or a dial of the configured local port. -/
inductive FallbackOutcome where
  | failed (msg : String) (writtenToClient : Bytes)
  | spliceTo (port : Nat)
deriving DecidableEq

/-- `handleFallback` from handshake.go up to its first effect: with a nil
config or destination port 0 it returns the unconfigured error having
written nothing; otherwise it dials `127.0.0.1:dest` and splices. -/
def handleFallback (fallback : Option FallbackConfig) : FallbackOutcome :=
  match fallback with
  | none => FallbackOutcome.failed fallbackNotConfiguredMsg []
  | some f =>
    if f.dest = 0 then FallbackOutcome.failed fallbackNotConfiguredMsg []
    else FallbackOutcome.spliceTo f.dest

/-- One `diff`/`d` update of the KS loop (stats.go): `diff = cdfA - cdfB`,
negated if negative, replacing `d` when larger. -/
def ksStep (d cdfA cdfB : ℚ) : ℚ :=
  let diff := cdfA - cdfB
  let diff2 := if diff < 0 then -diff else diff
  if d < diff2 then diff2 else d

/-- The merge loop of `KolmogorovSmirnovStatistic` (stats.go) over the
remaining suffixes of the two sorted samples.  `na`/`nb` are the total
lengths, `i`/`j` the counts consumed so far.  The two one-sided cases are
the source's drain loops. -/
def ksLoop (na nb : Nat) (as bs : List ℚ) (i j : Nat) (cdfA cdfB d : ℚ) : ℚ :=
  match as, bs with
  | x :: as2, y :: bs2 =>
    if x ≤ y then
      let c := ((i + 1 : Nat) : ℚ) / (na : ℚ)
      ksLoop na nb as2 (y :: bs2) (i + 1) j c cdfB (ksStep d c cdfB)
    else
      let c := ((j + 1 : Nat) : ℚ) / (nb : ℚ)
      ksLoop na nb (x :: as2) bs2 i (j + 1) cdfA c (ksStep d cdfA c)
  | _ :: as2, [] =>
    let c := ((i + 1 : Nat) : ℚ) / (na : ℚ)
    ksLoop na nb as2 [] (i + 1) j c cdfB (ksStep d c cdfB)
  | [], _ :: bs2 =>
    let c := ((j + 1 : Nat) : ℚ) / (nb : ℚ)
    ksLoop na nb [] bs2 i (j + 1) cdfA c (ksStep d cdfA c)
  | [], [] => d
termination_by as.length + bs.length

/-- `KolmogorovSmirnovStatistic` from stats.go, with float64 samples
modelled as exact rationals.  Empty input on either side gives 1;
otherwise both copies are sorted ascending (`sort.Float64s`) and the
merge loop takes the supremum of the CDF differences it observes. -/
def KolmogorovSmirnovStatistic (a b : List ℚ) : ℚ :=
  if a.length = 0 ∨ b.length = 0 then 1
  else
    ksLoop a.length b.length
      (a.insertionSort (· ≤ ·)) (b.insertionSort (· ≤ ·)) 0 0 0 0 0

/-- `calculateSizeDistribution` from the morphing module: bucket counts of
the positive samples, weights `count/total`, sorted ascending by size
(the Go map iteration order is erased by the final sort). -/
def calculateSizeDistribution (values : List Int) : List (Int × ℚ) :=
  (((values.filter (fun v => decide (0 < v))).dedup).insertionSort (· ≤ ·)).map
    (fun sz => (sz, ((values.filter (fun v => decide (0 < v))).count sz : ℚ) /
      ((values.filter (fun v => decide (0 < v))).length : ℚ)))

/-- `calculateDelayDistribution` from the morphing module; durations are
nanosecond integers. -/
def calculateDelayDistribution (values : List Int) : List (Int × ℚ) :=
  (((values.filter (fun v => decide (0 < v))).dedup).insertionSort (· ≤ ·)).map
    (fun dl => (dl, ((values.filter (fun v => decide (0 < v))).count dl : ℚ) /
      ((values.filter (fun v => decide (0 < v))).length : ℚ)))

/-- `CreateProfileFromObservations` from the morphing module, returning
the profile as (name, packet sizes, delays). -/
def CreateProfileFromObservations (name : String) (packetSizes : List Int)
    (delays : List Int) :
    Except String (String × List (Int × ℚ) × List (Int × ℚ)) :=
  if packetSizes.length = 0 ∨ delays.length = 0 then
    Except.error "insufficient samples"
  else
    Except.ok (name, calculateSizeDistribution packetSizes,
      calculateDelayDistribution delays)

/-- A concrete instance of the source's AEAD interface used to evaluate
the session theorems on concrete inputs: the ciphertext is the plaintext
followed by a 16-byte tag derived from the nonce, and opening checks the
tag.  It satisfies the same interface laws as ChaCha20-Poly1305. -/
def demoAEAD : AEAD where
  Seal := fun nonce pt => pt ++ (nonce ++ [0, 0, 0, 0])
  Open := fun nonce ct =>
    if 16 ≤ ct.length ∧ ct.drop (ct.length - 16) = nonce ++ [0, 0, 0, 0] then
      some (ct.take (ct.length - 16))
    else none

/-! ### Helper lemmas -/

theorem makeNonce_length (c : Nat) : (makeNonce c).length = 12 := rfl

theorem demoAEAD_SealLen : demoAEAD.SealLen := by
  intro c pt
  simp [demoAEAD, AEAD.SealLen, makeNonce, be64]

theorem demoAEAD_Sound : demoAEAD.Sound := by
  intro c pt
  have htag : (makeNonce c ++ [0, 0, 0, 0]).length = 16 := rfl
  simp only [demoAEAD, AEAD.Sound, List.length_append, htag]
  rw [if_pos]
  · rw [Nat.add_sub_cancel, List.take_left]
  · constructor
    · omega
    · rw [Nat.add_sub_cancel, List.drop_left]

theorem replayInv_new (A : AEAD) : ReplayInv (NewSession A) := by
  refine ⟨by simp [NewSession], by simp [NewSession], by simp [NewSession], ?_⟩
  intro x
  simp [NewSession]

theorem WriteFrame_ok (s : Session) (frameType : Nat) (data : Bytes)
    (h : (s.aead.Seal (makeNonce s.writeNonce) data).length ≤ maxFramePayloadSize) :
    WriteFrame s frameType data =
      (Except.ok (be16 (s.aead.Seal (makeNonce s.writeNonce) data).length ++ [frameType] ++
          s.aead.Seal (makeNonce s.writeNonce) data),
        { s with writeNonce := s.writeNonce + 1 }) := by
  unfold WriteFrame
  rw [if_neg (by omega)]

theorem rememberCiphertext_already (hash : Bytes → Bytes) (s : Session) (ct : Bytes)
    (h : hash ct ∈ s.replaySeen) :
    rememberCiphertext hash s ct = (false, s) := by
  unfold rememberCiphertext
  rw [if_pos h]

theorem rememberCiphertext_counters (hash : Bytes → Bytes) (s : Session) (ct : Bytes) :
    (rememberCiphertext hash s ct).2.aead = s.aead ∧
    (rememberCiphertext hash s ct).2.readNonce = s.readNonce ∧
    (rememberCiphertext hash s ct).2.writeNonce = s.writeNonce := by
  unfold rememberCiphertext
  split
  · exact ⟨rfl, rfl, rfl⟩
  · split
    · split <;> exact ⟨rfl, rfl, rfl⟩
    · exact ⟨rfl, rfl, rfl⟩

theorem rememberCiphertext_fresh (hash : Bytes → Bytes) (s : Session) (ct : Bytes)
    (hfresh : hash ct ∉ s.replaySeen) :
    (rememberCiphertext hash s ct).1 = true := by
  unfold rememberCiphertext
  rw [if_neg hfresh]
  split
  · split <;> rfl
  · rfl

theorem rememberCiphertext_fresh_mem (hash : Bytes → Bytes) (s : Session) (ct : Bytes)
    (hfresh : hash ct ∉ s.replaySeen) (hinv : ReplayInv s) :
    hash ct ∈ (rememberCiphertext hash s ct).2.replaySeen := by
  obtain ⟨hbound, hordnd, hseennd, hiff⟩ := hinv
  have hnd2 : (s.replaySeen ++ [hash ct]).Nodup := by
    rw [List.nodup_append]
    exact ⟨hseennd, List.nodup_singleton _, by simpa using hfresh⟩
  unfold rememberCiphertext
  rw [if_neg hfresh]
  split
  · rename_i hgt
    split
    · rename_i heq
      exact absurd heq (by simp)
    · rename_i old rest heq
      rcases horder : s.replayOrder with _ | ⟨o, r0⟩
      · rw [horder] at hgt
        simp [replayWindowSize] at hgt
      · rw [horder, List.cons_append] at heq
        injection heq with h1 h2
        have ho : o ∈ s.replaySeen := (hiff o).mpr (by rw [horder]; exact List.mem_cons_self o r0)
        have hne : hash ct ≠ old := by
          rw [← h1]
          exact fun he => hfresh (he ▸ ho)
        exact (List.Nodup.mem_erase_iff hnd2).mpr ⟨hne, by simp⟩
  · simp

theorem rememberCiphertext_inv (hash : Bytes → Bytes) (s : Session) (ct : Bytes)
    (hinv : ReplayInv s) : ReplayInv (rememberCiphertext hash s ct).2 := by
  obtain ⟨hbound, hordnd, hseennd, hiff⟩ := hinv
  unfold rememberCiphertext
  split
  · exact ⟨hbound, hordnd, hseennd, hiff⟩
  · rename_i hfresh
    have hctord : hash ct ∉ s.replayOrder := fun hmem => hfresh ((hiff _).mpr hmem)
    have hseennd2 : (s.replaySeen ++ [hash ct]).Nodup := by
      rw [List.nodup_append]
      exact ⟨hseennd, List.nodup_singleton _, by simpa using hfresh⟩
    split
    · rename_i hgt
      split
      · rename_i heq
        exact absurd heq (by simp)
      · rename_i old rest heq
        rcases horder : s.replayOrder with _ | ⟨o, r0⟩
        · rw [horder] at hgt
          simp [replayWindowSize] at hgt
        · rw [horder, List.cons_append] at heq
          injection heq with h1 h2
          rw [horder] at hbound hordnd hctord
          rw [List.nodup_cons] at hordnd
          obtain ⟨honr0, hr0nd⟩ := hordnd
          have hneq_oh : hash ct ≠ o := by
            intro he
            exact hctord (he ▸ List.mem_cons_self o r0)
          subst h1
          rw [← h2]
          have hrestnd : (r0 ++ [hash ct]).Nodup := by
            rw [List.nodup_append]
            refine ⟨hr0nd, List.nodup_singleton _, ?_⟩
            intro a ha hmem
            rw [List.mem_singleton] at hmem
            exact hctord (hmem ▸ List.mem_cons_of_mem o ha)
          refine ⟨?_, hrestnd, hseennd2.erase o, ?_⟩
          · simp only [List.length_cons] at hbound
            simp only [List.length_append, List.length_singleton]
            omega
          · intro x
            rw [List.Nodup.mem_erase_iff hseennd2]
            simp only [List.mem_append, List.mem_cons, List.not_mem_nil, or_false,
              hiff x, horder]
            constructor
            · rintro ⟨hne, (rfl | hr) | rfl⟩
              · exact absurd rfl hne
              · exact Or.inl hr
              · exact Or.inr rfl
            · rintro (hr | rfl)
              · exact ⟨fun he => honr0 (he ▸ hr), Or.inl (Or.inr hr)⟩
              · exact ⟨fun he => hneq_oh he, Or.inr rfl⟩
    · rename_i hle
      have hordnd2 : (s.replayOrder ++ [hash ct]).Nodup := by
        rw [List.nodup_append]
        exact ⟨hordnd, List.nodup_singleton _, by simpa using hctord⟩
      have hiff2 : ∀ x, x ∈ s.replaySeen ++ [hash ct] ↔ x ∈ s.replayOrder ++ [hash ct] := by
        intro x
        simp only [List.mem_append, List.mem_singleton]
        rw [hiff x]
      refine ⟨?_, hordnd2, hseennd2, hiff2⟩
      simp only [not_lt, List.length_append, List.length_singleton] at hle
      simp only [List.length_append, List.length_singleton]
      omega

theorem ReadFrame_short (hash : Bytes → Bytes) (s : Session) (input : Bytes)
    (h3 : input.length < 3) :
    ReadFrame hash s input =
      (Except.error (if input.length = 0 then "EOF" else "unexpected EOF"), s, input) := by
  simp only [ReadFrame]
  rw [if_pos h3]

theorem ReadFrame_badLen (hash : Bytes → Bytes) (s : Session) (input : Bytes)
    (h3 : ¬ input.length < 3)
    (hl : parseLen input = 0 ∨ maxFramePayloadSize < parseLen input) :
    ReadFrame hash s input =
      (Except.error "invalid reflex frame length", s, input.drop 3) := by
  simp only [ReadFrame]
  rw [if_neg h3, if_pos hl]

theorem ReadFrame_truncated (hash : Bytes → Bytes) (s : Session) (input : Bytes)
    (h3 : ¬ input.length < 3)
    (hl : ¬ (parseLen input = 0 ∨ maxFramePayloadSize < parseLen input))
    (hshort : (input.drop 3).length < parseLen input) :
    ReadFrame hash s input = (Except.error "unexpected EOF", s, []) := by
  simp only [ReadFrame]
  rw [if_neg h3, if_neg hl, if_pos hshort]

theorem ReadFrame_replayed (hash : Bytes → Bytes) (s : Session) (input : Bytes)
    (h3 : ¬ input.length < 3)
    (hl : ¬ (parseLen input = 0 ∨ maxFramePayloadSize < parseLen input))
    (hfull : ¬ (input.drop 3).length < parseLen input)
    (hmem : hash ((input.drop 3).take (parseLen input)) ∈ s.replaySeen) :
    ReadFrame hash s input =
      (Except.error "replay detected", s, (input.drop 3).drop (parseLen input)) := by
  simp only [ReadFrame]
  rw [if_neg h3, if_neg hl, if_neg hfull, rememberCiphertext_already hash s _ hmem]

theorem ReadFrame_success (hash : Bytes → Bytes) (s : Session) (input : Bytes)
    (payload : Bytes)
    (h3 : ¬ input.length < 3)
    (hl : ¬ (parseLen input = 0 ∨ maxFramePayloadSize < parseLen input))
    (hfull : ¬ (input.drop 3).length < parseLen input)
    (hfresh : hash ((input.drop 3).take (parseLen input)) ∉ s.replaySeen)
    (hopen : s.aead.Open (makeNonce s.readNonce)
      ((input.drop 3).take (parseLen input)) = some payload) :
    ReadFrame hash s input =
      (Except.ok { length := parseLen input, type := input.getD 2 0, payload := payload },
        { (rememberCiphertext hash s ((input.drop 3).take (parseLen input))).2 with
          readNonce := s.readNonce + 1 },
        (input.drop 3).drop (parseLen input)) := by
  simp only [ReadFrame]
  rw [if_neg h3, if_neg hl, if_neg hfull]
  rcases hrc : rememberCiphertext hash s ((input.drop 3).take (parseLen input)) with ⟨b, s1⟩
  have hb : b = true := by
    have hf := rememberCiphertext_fresh hash s _ hfresh
    rw [hrc] at hf
    exact hf
  subst hb
  obtain ⟨ha, hr, _⟩ := rememberCiphertext_counters hash s
    ((input.drop 3).take (parseLen input))
  rw [hrc] at ha hr
  dsimp only
  dsimp only at ha hr
  rw [ha, hr, hopen]

theorem ReadFrame_decryptFail (hash : Bytes → Bytes) (s : Session) (input : Bytes)
    (h3 : ¬ input.length < 3)
    (hl : ¬ (parseLen input = 0 ∨ maxFramePayloadSize < parseLen input))
    (hfull : ¬ (input.drop 3).length < parseLen input)
    (hfresh : hash ((input.drop 3).take (parseLen input)) ∉ s.replaySeen)
    (hopen : s.aead.Open (makeNonce s.readNonce)
      ((input.drop 3).take (parseLen input)) = none) :
    ReadFrame hash s input =
      (Except.error "message authentication failed",
        { (rememberCiphertext hash s ((input.drop 3).take (parseLen input))).2 with
          readNonce := s.readNonce + 1 },
        (input.drop 3).drop (parseLen input)) := by
  simp only [ReadFrame]
  rw [if_neg h3, if_neg hl, if_neg hfull]
  rcases hrc : rememberCiphertext hash s ((input.drop 3).take (parseLen input)) with ⟨b, s1⟩
  have hb : b = true := by
    have hf := rememberCiphertext_fresh hash s _ hfresh
    rw [hrc] at hf
    exact hf
  subst hb
  obtain ⟨ha, hr, _⟩ := rememberCiphertext_counters hash s
    ((input.drop 3).take (parseLen input))
  rw [hrc] at ha hr
  dsimp only
  dsimp only at ha hr
  rw [ha, hr, hopen]

theorem ReadFrame_replayInv (hash : Bytes → Bytes) (s : Session) (input : Bytes)
    (hinv : ReplayInv s) : ReplayInv (ReadFrame hash s input).2.1 := by
  by_cases h3 : input.length < 3
  · rw [ReadFrame_short hash s input h3]
    exact hinv
  · by_cases hl : parseLen input = 0 ∨ maxFramePayloadSize < parseLen input
    · rw [ReadFrame_badLen hash s input h3 hl]
      exact hinv
    · by_cases hshort : (input.drop 3).length < parseLen input
      · rw [ReadFrame_truncated hash s input h3 hl hshort]
        exact hinv
      · by_cases hmem : hash ((input.drop 3).take (parseLen input)) ∈ s.replaySeen
        · rw [ReadFrame_replayed hash s input h3 hl hshort hmem]
          exact hinv
        · have hinv2 := rememberCiphertext_inv hash s
            ((input.drop 3).take (parseLen input)) hinv
          rcases hopen : s.aead.Open (makeNonce s.readNonce)
              ((input.drop 3).take (parseLen input)) with _ | payload
          · rw [ReadFrame_decryptFail hash s input h3 hl hshort hmem hopen]
            exact hinv2
          · rw [ReadFrame_success hash s input payload h3 hl hshort hmem hopen]
            exact hinv2

theorem rememberCiphertext_evict (hash : Bytes → Bytes) (s : Session) (ct : Bytes)
    (hinv : ReplayInv s) (hfresh : hash ct ∉ s.replaySeen)
    (hlen : s.replayOrder.length = replayWindowSize) :
    (rememberCiphertext hash s ct).2.replayOrder = s.replayOrder.tail ++ [hash ct] ∧
    ∀ x, x ∈ (rememberCiphertext hash s ct).2.replaySeen ↔
      x ∈ s.replayOrder.tail ++ [hash ct] := by
  obtain ⟨hbound, hordnd, hseennd, hiff⟩ := hinv
  have hseennd2 : (s.replaySeen ++ [hash ct]).Nodup := by
    rw [List.nodup_append]
    exact ⟨hseennd, List.nodup_singleton _, by simpa using hfresh⟩
  have hctord : hash ct ∉ s.replayOrder := fun hmem => hfresh ((hiff _).mpr hmem)
  unfold rememberCiphertext
  rw [if_neg hfresh, if_pos (by simp [hlen])]
  rcases horder : s.replayOrder with _ | ⟨o, r0⟩
  · rw [horder] at hlen
    simp [replayWindowSize] at hlen
  · rw [horder] at hordnd hctord
    rw [List.nodup_cons] at hordnd
    obtain ⟨honr0, hr0nd⟩ := hordnd
    have hneq_oh : hash ct ≠ o := by
      intro he
      exact hctord (he ▸ List.mem_cons_self o r0)
    constructor
    · simp
    · intro x
      simp only [List.cons_append]
      rw [List.Nodup.mem_erase_iff hseennd2]
      simp only [List.mem_append, List.mem_cons, List.not_mem_nil, or_false,
        hiff x, horder, List.tail_cons]
      constructor
      · rintro ⟨hne, (rfl | hr) | rfl⟩
        · exact absurd rfl hne
        · exact Or.inl hr
        · exact Or.inr rfl
      · rintro (hr | rfl)
        · exact ⟨fun he => honr0 (he ▸ hr), Or.inl (Or.inr hr)⟩
        · exact ⟨fun he => hneq_oh he, Or.inr rfl⟩

/-- One thousand distinct hash values in insertion order. -/
def bigOrder : List Bytes := (List.range 1000).map (fun n => [n])

/-- A session whose replay window is full: 1000 distinct hashes in
insertion order.  Used to exercise the eviction boundary. -/
def bigSession : Session :=
  { aead := demoAEAD, readNonce := 0, writeNonce := 0,
    replaySeen := bigOrder, replayOrder := bigOrder }

theorem bigOrder_nodup : bigOrder.Nodup := by
  refine List.Nodup.map ?_ (List.nodup_range 1000)
  intro a b hab
  simpa using hab

theorem bigSession_inv : ReplayInv bigSession := by
  refine ⟨?_, ?_, ?_, fun x => Iff.rfl⟩
  · show bigOrder.length ≤ replayWindowSize
    simp [bigOrder, replayWindowSize]
  · exact bigOrder_nodup
  · exact bigOrder_nodup

theorem bigSession_fresh : ([2000] : Bytes) ∉ bigSession.replaySeen := by
  show ([2000] : Bytes) ∉ bigOrder
  simp only [bigOrder, List.mem_map, List.mem_range]
  rintro ⟨n, hn, he⟩
  have : n = 2000 := by simpa using he
  omega

theorem bigSession_full : bigSession.replayOrder.length = replayWindowSize := by
  show bigOrder.length = replayWindowSize
  simp [bigOrder, replayWindowSize]

/-- C8: after every ReadFrame call on a session satisfying the replay
invariant the invariant still holds (at most 1000 hashes, FIFO list and
hash set with the same elements, both duplicate-free), fresh sessions
satisfy it, and when a new distinct ciphertext arrives with the window
already at 1000 entries the oldest-inserted hash is the one evicted: the
FIFO list becomes its tail plus the new hash, and the set holds exactly
those elements. -/
theorem replay_set_bounded_fifo :
    (∀ A, ReplayInv (NewSession A)) ∧
    (∀ hash s input, ReplayInv s → ReplayInv (ReadFrame hash s input).2.1) ∧
    (∀ hash s ct, ReplayInv s → hash ct ∉ s.replaySeen →
      s.replayOrder.length = replayWindowSize →
      (rememberCiphertext hash s ct).2.replayOrder =
        s.replayOrder.tail ++ [hash ct] ∧
      ∀ x, x ∈ (rememberCiphertext hash s ct).2.replaySeen ↔
        x ∈ s.replayOrder.tail ++ [hash ct]) :=
  ⟨replayInv_new, ReadFrame_replayInv, rememberCiphertext_evict⟩

theorem replay_set_bounded_fifo_witness :
    ReplayInv (NewSession demoAEAD) ∧
    ReplayInv (ReadFrame (fun b => b) bigSession [0, 17, 1, 9]).2.1 ∧
    (rememberCiphertext (fun b => b) bigSession [2000]).2.replayOrder =
      bigSession.replayOrder.tail ++ [[2000]] :=
  ⟨replay_set_bounded_fifo.1 demoAEAD,
   replay_set_bounded_fifo.2.1 (fun b => b) bigSession [0, 17, 1, 9] bigSession_inv,
   (replay_set_bounded_fifo.2.2 (fun b => b) bigSession [2000] bigSession_inv
     bigSession_fresh bigSession_full).1⟩

/-- C2: on any session satisfying the replay invariant, when ReadFrame
accepts a frame, submitting the very same wire bytes again is rejected
with the error "replay detected", because the ciphertext's hash is now in
the replay set. -/
theorem read_replay_second_rejected (hash : Bytes → Bytes) (s : Session)
    (input : Bytes) (f : Frame) (hinv : ReplayInv s)
    (hok : (ReadFrame hash s input).1 = Except.ok f) :
    (ReadFrame hash (ReadFrame hash s input).2.1 input).1 =
      Except.error "replay detected" := by
  by_cases h3 : input.length < 3
  · rw [ReadFrame_short hash s input h3] at hok
    simp at hok
  by_cases hl : parseLen input = 0 ∨ maxFramePayloadSize < parseLen input
  · rw [ReadFrame_badLen hash s input h3 hl] at hok
    simp at hok
  by_cases hshort : (input.drop 3).length < parseLen input
  · rw [ReadFrame_truncated hash s input h3 hl hshort] at hok
    simp at hok
  by_cases hmem : hash ((input.drop 3).take (parseLen input)) ∈ s.replaySeen
  · rw [ReadFrame_replayed hash s input h3 hl hshort hmem] at hok
    simp at hok
  rcases hopen : s.aead.Open (makeNonce s.readNonce)
      ((input.drop 3).take (parseLen input)) with _ | payload
  · rw [ReadFrame_decryptFail hash s input h3 hl hshort hmem hopen] at hok
    simp at hok
  · rw [ReadFrame_success hash s input payload h3 hl hshort hmem hopen]
    have hmem2 : hash ((input.drop 3).take (parseLen input)) ∈
        (rememberCiphertext hash s ((input.drop 3).take (parseLen input))).2.replaySeen :=
      rememberCiphertext_fresh_mem hash s _ hmem hinv
    show (ReadFrame hash
        { (rememberCiphertext hash s ((input.drop 3).take (parseLen input))).2 with
          readNonce := s.readNonce + 1 } input).1 = Except.error "replay detected"
    rw [ReadFrame_replayed hash
      { (rememberCiphertext hash s ((input.drop 3).take (parseLen input))).2 with
        readNonce := s.readNonce + 1 } input h3 hl hshort hmem2]

theorem read_replay_second_rejected_witness :
    (ReadFrame (fun b => b) (ReadFrame (fun b => b) (NewSession demoAEAD)
        [0, 18, 1, 7, 7, 0, 0, 0, 0, 0, 0, 0, 0, 0, 0, 0, 0, 0, 0, 0, 0]).2.1
        [0, 18, 1, 7, 7, 0, 0, 0, 0, 0, 0, 0, 0, 0, 0, 0, 0, 0, 0, 0, 0]).1 =
      Except.error "replay detected" :=
  read_replay_second_rejected (fun b => b) (NewSession demoAEAD)
    [0, 18, 1, 7, 7, 0, 0, 0, 0, 0, 0, 0, 0, 0, 0, 0, 0, 0, 0, 0, 0]
    { length := 18, type := 1, payload := [7, 7] } (replayInv_new demoAEAD) (by rfl)

/-- C10: when ReadFrame reads a well-formed, never-seen frame whose
ciphertext fails AEAD authentication, the call errors but the session
state has already changed: the ciphertext's hash is in the replay set and
the read counter has been incremented, so resubmitting the same bytes
yields "replay detected" and the next frame will use the next counter. -/
theorem read_decrypt_failure_state (hash : Bytes → Bytes) (s : Session)
    (input : Bytes) (hinv : ReplayInv s)
    (h3 : ¬ input.length < 3)
    (hl : ¬ (parseLen input = 0 ∨ maxFramePayloadSize < parseLen input))
    (hfull : ¬ (input.drop 3).length < parseLen input)
    (hfresh : hash ((input.drop 3).take (parseLen input)) ∉ s.replaySeen)
    (hopen : s.aead.Open (makeNonce s.readNonce)
      ((input.drop 3).take (parseLen input)) = none) :
    (ReadFrame hash s input).1 = Except.error "message authentication failed" ∧
    (ReadFrame hash s input).2.1.readNonce = s.readNonce + 1 ∧
    hash ((input.drop 3).take (parseLen input)) ∈
      (ReadFrame hash s input).2.1.replaySeen ∧
    (ReadFrame hash (ReadFrame hash s input).2.1 input).1 =
      Except.error "replay detected" := by
  have heq := ReadFrame_decryptFail hash s input h3 hl hfull hfresh hopen
  have hmem2 : hash ((input.drop 3).take (parseLen input)) ∈
      (rememberCiphertext hash s ((input.drop 3).take (parseLen input))).2.replaySeen :=
    rememberCiphertext_fresh_mem hash s _ hfresh hinv
  refine ⟨by rw [heq], by rw [heq], by rw [heq]; exact hmem2, ?_⟩
  rw [heq]
  show (ReadFrame hash
      { (rememberCiphertext hash s ((input.drop 3).take (parseLen input))).2 with
        readNonce := s.readNonce + 1 } input).1 = Except.error "replay detected"
  rw [ReadFrame_replayed hash
    { (rememberCiphertext hash s ((input.drop 3).take (parseLen input))).2 with
      readNonce := s.readNonce + 1 } input h3 hl hfull hmem2]

theorem read_decrypt_failure_state_witness :
    (ReadFrame (fun b => b) (NewSession demoAEAD) [0, 1, 1, 5]).1 =
      Except.error "message authentication failed" ∧
    (ReadFrame (fun b => b) (NewSession demoAEAD) [0, 1, 1, 5]).2.1.readNonce = 1 ∧
    ([5] : Bytes) ∈ (ReadFrame (fun b => b) (NewSession demoAEAD) [0, 1, 1, 5]).2.1.replaySeen ∧
    (ReadFrame (fun b => b)
        (ReadFrame (fun b => b) (NewSession demoAEAD) [0, 1, 1, 5]).2.1 [0, 1, 1, 5]).1 =
      Except.error "replay detected" :=
  read_decrypt_failure_state (fun b => b) (NewSession demoAEAD) [0, 1, 1, 5]
    (replayInv_new demoAEAD) (by decide) (by decide) (by decide) (by decide) (by rfl)

/-- C7: whenever the sealed ciphertext of a payload exceeds 65535 bytes,
WriteFrame returns the error "frame too large" and emits nothing: no
header and no ciphertext bytes are produced. -/
theorem write_oversize_refused (s : Session) (frameType : Nat) (data : Bytes)
    (h : maxFramePayloadSize < (s.aead.Seal (makeNonce s.writeNonce) data).length) :
    (WriteFrame s frameType data).1 = Except.error "frame too large" ∧
    ∀ out, (WriteFrame s frameType data).1 ≠ Except.ok out := by
  constructor
  · simp only [WriteFrame]
    rw [if_pos h]
  · intro out
    simp only [WriteFrame]
    rw [if_pos h]
    simp

theorem write_oversize_refused_witness :
    (WriteFrame (NewSession demoAEAD) FrameTypeData (List.replicate 65520 0)).1 =
      Except.error "frame too large" :=
  (write_oversize_refused (NewSession demoAEAD) FrameTypeData (List.replicate 65520 0)
    (by
      show maxFramePayloadSize <
        (demoAEAD.Seal (makeNonce 0) (List.replicate 65520 0)).length
      have hl := demoAEAD_SealLen 0 (List.replicate 65520 0)
      rw [List.length_replicate] at hl
      rw [hl]
      decide)).1

/-- C4: the handshake timestamp validation succeeds exactly when the
timestamp is within five minutes (300 seconds) of the current time, and
when it is outside the window the handshake answers HTTP 403 and falls
back. -/
theorem handshake_timestamp_window (now ts : Int) :
    (validateHandshakeTimestamp now ts = Except.ok () ↔ (now - ts).natAbs ≤ 300) ∧
    (300 < (now - ts).natAbs →
      processHandshakeTimestampGate now ts = HandshakeAction.forbiddenThenFallback) := by
  constructor
  · unfold validateHandshakeTimestamp handshakeSkew
    split
    · rename_i hcond
      constructor
      · intro h
        exact absurd h (by simp)
      · intro habs
        exfalso
        rcases hcond with h | h <;> omega
    · rename_i hcond
      rw [not_or] at hcond
      constructor
      · intro _
        omega
      · intro _
        rfl
  · intro habs
    unfold processHandshakeTimestampGate validateHandshakeTimestamp handshakeSkew
    rw [if_pos (by omega)]

theorem handshake_timestamp_window_witness :
    300 < ((1000 : Int) - 0).natAbs ∧
    processHandshakeTimestampGate 1000 0 = HandshakeAction.forbiddenThenFallback :=
  ⟨by decide, (handshake_timestamp_window 1000 0).2 (by decide)⟩

/-- C9: the fallback path returns its error exactly when no fallback is
configured (absent config or destination port 0); the error message names
the unmatched handshake and the unconfigured fallback, and nothing has
been written to the client connection when it is returned. -/
theorem fallback_unconfigured_error (fb : Option FallbackConfig) :
    ((fb = none ∨ ∃ f, fb = some f ∧ f.dest = 0) ↔
      handleFallback fb = FallbackOutcome.failed fallbackNotConfiguredMsg []) ∧
    "handshake not matched".data <:+: fallbackNotConfiguredMsg.data ∧
    "fallback".data <:+: fallbackNotConfiguredMsg.data ∧
    "not configured".data <:+: fallbackNotConfiguredMsg.data := by
  refine ⟨?_, by decide, by decide, by decide⟩
  rcases fb with _ | f
  · simp [handleFallback]
  · by_cases hd : f.dest = 0
    · simp [handleFallback, hd]
    · simp [handleFallback, hd]

theorem fallback_unconfigured_error_witness :
    handleFallback none = FallbackOutcome.failed fallbackNotConfiguredMsg [] :=
  (fallback_unconfigured_error none).1.mp (Or.inl rfl)

/-- C1: for any AEAD with the ChaCha20-Poly1305 interface laws (so for
any 32-byte key) and any payload whose ciphertext fits in 65535 bytes,
writing a frame on a fresh session and reading the produced bytes on a
fresh identically-keyed session succeeds, returns the written type and
payload, and leaves the reader's counter equal to the writer's. -/
theorem frame_roundtrip (A : AEAD) (hsound : A.Sound) (hlen : A.SealLen)
    (hash : Bytes → Bytes) (frameType : Nat) (ht : frameType < 256) (P : Bytes)
    (hP : (A.Seal (makeNonce 0) P).length ≤ maxFramePayloadSize) :
    (WriteFrame (NewSession A) frameType P).1 =
      Except.ok (be16 (A.Seal (makeNonce 0) P).length ++ [frameType] ++
        A.Seal (makeNonce 0) P) ∧
    (ReadFrame hash (NewSession A)
        (be16 (A.Seal (makeNonce 0) P).length ++ [frameType] ++
          A.Seal (makeNonce 0) P)).1 =
      Except.ok
        { length := (A.Seal (makeNonce 0) P).length, type := frameType, payload := P } ∧
    (ReadFrame hash (NewSession A)
        (be16 (A.Seal (makeNonce 0) P).length ++ [frameType] ++
          A.Seal (makeNonce 0) P)).2.1.readNonce =
      (WriteFrame (NewSession A) frameType P).2.writeNonce := by
  have hL : (A.Seal (makeNonce 0) P).length = P.length + 16 := hlen 0 P
  have hwrite := WriteFrame_ok (NewSession A) frameType P hP
  have hmod : (A.Seal (makeNonce 0) P).length % 65536 =
      (A.Seal (makeNonce 0) P).length := by
    apply Nat.mod_eq_of_lt
    have := hP
    unfold maxFramePayloadSize at this
    omega
  have h0 : (be16 (A.Seal (makeNonce 0) P).length ++ [frameType] ++
      A.Seal (makeNonce 0) P).getD 0 0 =
      (A.Seal (makeNonce 0) P).length % 65536 / 256 := by
    simp [be16]
  have h1 : (be16 (A.Seal (makeNonce 0) P).length ++ [frameType] ++
      A.Seal (makeNonce 0) P).getD 1 0 = (A.Seal (makeNonce 0) P).length % 256 := by
    simp [be16]
  have h2 : (be16 (A.Seal (makeNonce 0) P).length ++ [frameType] ++
      A.Seal (makeNonce 0) P).getD 2 0 = frameType := by
    simp [be16]
  have hparse : parseLen (be16 (A.Seal (makeNonce 0) P).length ++ [frameType] ++
      A.Seal (makeNonce 0) P) = (A.Seal (makeNonce 0) P).length := by
    unfold parseLen
    rw [h0, h1, hmod]
    omega
  have hdrop : (be16 (A.Seal (makeNonce 0) P).length ++ [frameType] ++
      A.Seal (makeNonce 0) P).drop 3 = A.Seal (makeNonce 0) P := by
    simp [be16]
  have htotal : (be16 (A.Seal (makeNonce 0) P).length ++ [frameType] ++
      A.Seal (makeNonce 0) P).length = (A.Seal (makeNonce 0) P).length + 3 := by
    simp [be16]
  have h3 : ¬ (be16 (A.Seal (makeNonce 0) P).length ++ [frameType] ++
      A.Seal (makeNonce 0) P).length < 3 := by
    rw [htotal]
    omega
  have hl2 : ¬ (parseLen (be16 (A.Seal (makeNonce 0) P).length ++ [frameType] ++
      A.Seal (makeNonce 0) P) = 0 ∨
      maxFramePayloadSize < parseLen (be16 (A.Seal (makeNonce 0) P).length ++
        [frameType] ++ A.Seal (makeNonce 0) P)) := by
    rw [hparse]
    unfold maxFramePayloadSize
    unfold maxFramePayloadSize at hP
    omega
  have hfull : ¬ ((be16 (A.Seal (makeNonce 0) P).length ++ [frameType] ++
      A.Seal (makeNonce 0) P).drop 3).length <
      parseLen (be16 (A.Seal (makeNonce 0) P).length ++ [frameType] ++
        A.Seal (makeNonce 0) P) := by
    rw [hdrop, hparse]
    omega
  have htake : (((be16 (A.Seal (makeNonce 0) P).length ++ [frameType] ++
      A.Seal (makeNonce 0) P).drop 3).take
      (parseLen (be16 (A.Seal (makeNonce 0) P).length ++ [frameType] ++
        A.Seal (makeNonce 0) P))) = A.Seal (makeNonce 0) P := by
    rw [hdrop, hparse]
    exact List.take_length _
  have hfresh : hash (((be16 (A.Seal (makeNonce 0) P).length ++ [frameType] ++
      A.Seal (makeNonce 0) P).drop 3).take
      (parseLen (be16 (A.Seal (makeNonce 0) P).length ++ [frameType] ++
        A.Seal (makeNonce 0) P))) ∉ (NewSession A).replaySeen := by
    simp [NewSession]
  have hopen : (NewSession A).aead.Open (makeNonce (NewSession A).readNonce)
      (((be16 (A.Seal (makeNonce 0) P).length ++ [frameType] ++
        A.Seal (makeNonce 0) P).drop 3).take
        (parseLen (be16 (A.Seal (makeNonce 0) P).length ++ [frameType] ++
          A.Seal (makeNonce 0) P))) = some P := by
    rw [htake]
    exact hsound 0 P
  have hread := ReadFrame_success hash (NewSession A)
    (be16 (A.Seal (makeNonce 0) P).length ++ [frameType] ++ A.Seal (makeNonce 0) P)
    P h3 hl2 hfull hfresh hopen
  refine ⟨?_, ?_, ?_⟩
  · rw [hwrite]
    rfl
  · rw [hread, hparse, h2]
  · rw [hread, hwrite]
    rfl

theorem frame_roundtrip_witness :
    (WriteFrame (NewSession demoAEAD) 1 [7, 7]).1 =
      Except.ok (be16 (demoAEAD.Seal (makeNonce 0) [7, 7]).length ++ [1] ++
        demoAEAD.Seal (makeNonce 0) [7, 7]) ∧
    (ReadFrame (fun b => b) (NewSession demoAEAD)
        (be16 (demoAEAD.Seal (makeNonce 0) [7, 7]).length ++ [1] ++
          demoAEAD.Seal (makeNonce 0) [7, 7])).1 =
      Except.ok
        { length := (demoAEAD.Seal (makeNonce 0) [7, 7]).length, type := 1,
          payload := [7, 7] } ∧
    (ReadFrame (fun b => b) (NewSession demoAEAD)
        (be16 (demoAEAD.Seal (makeNonce 0) [7, 7]).length ++ [1] ++
          demoAEAD.Seal (makeNonce 0) [7, 7])).2.1.readNonce =
      (WriteFrame (NewSession demoAEAD) 1 [7, 7]).2.writeNonce :=
  frame_roundtrip demoAEAD demoAEAD_Sound demoAEAD_SealLen (fun b => b) 1
    (by decide) [7, 7] (by decide)

theorem ksStep_nonneg (d cdfA cdfB : ℚ) (h5 : 0 ≤ d) : 0 ≤ ksStep d cdfA cdfB := by
  simp only [ksStep]
  split_ifs <;> linarith

theorem ksStep_le_one (d cdfA cdfB : ℚ) (h1 : 0 ≤ cdfA) (h2 : cdfA ≤ 1)
    (h3 : 0 ≤ cdfB) (h4 : cdfB ≤ 1) (h6 : d ≤ 1) : ksStep d cdfA cdfB ≤ 1 := by
  simp only [ksStep]
  split_ifs <;> linarith

theorem cdf_bounds (i na : Nat) (h : i + 1 ≤ na) :
    0 ≤ ((i + 1 : Nat) : ℚ) / (na : ℚ) ∧ ((i + 1 : Nat) : ℚ) / (na : ℚ) ≤ 1 := by
  have hna : 0 < (na : ℚ) := by
    have : 0 < na := by omega
    exact_mod_cast this
  constructor
  · positivity
  · rw [div_le_one hna]
    exact_mod_cast h

theorem ksLoop_bounds (na nb : Nat) :
    ∀ (as bs : List ℚ) (i j : Nat) (cdfA cdfB d : ℚ),
      i + as.length ≤ na → j + bs.length ≤ nb →
      0 ≤ cdfA → cdfA ≤ 1 → 0 ≤ cdfB → cdfB ≤ 1 → 0 ≤ d → d ≤ 1 →
      0 ≤ ksLoop na nb as bs i j cdfA cdfB d ∧
        ksLoop na nb as bs i j cdfA cdfB d ≤ 1 := by
  intro as bs i j cdfA cdfB d
  induction as, bs, i, j, cdfA, cdfB, d using ksLoop.induct na nb with
  | case1 i j cdfA cdfB d x as2 y bs2 hxy c ih =>
    intro hi hj h1 h2 h3 h4 h5 h6
    simp only [ksLoop, if_pos hxy]
    simp only [List.length_cons] at hi
    obtain ⟨hc0, hc1⟩ := cdf_bounds i na (by omega)
    exact ih (by omega) hj hc0 hc1 h3 h4
      (ksStep_nonneg d _ cdfB h5) (ksStep_le_one d _ cdfB hc0 hc1 h3 h4 h6)
  | case2 i j cdfA cdfB d x as2 y bs2 hxy c ih =>
    intro hi hj h1 h2 h3 h4 h5 h6
    simp only [ksLoop, if_neg hxy]
    simp only [List.length_cons] at hj
    obtain ⟨hc0, hc1⟩ := cdf_bounds j nb (by omega)
    exact ih hi (by omega) h1 h2 hc0 hc1
      (ksStep_nonneg d cdfA _ h5) (ksStep_le_one d cdfA _ h1 h2 hc0 hc1 h6)
  | case3 i j cdfA cdfB d x as2 c ih =>
    intro hi hj h1 h2 h3 h4 h5 h6
    simp only [ksLoop]
    simp only [List.length_cons] at hi
    obtain ⟨hc0, hc1⟩ := cdf_bounds i na (by omega)
    exact ih (by omega) hj hc0 hc1 h3 h4
      (ksStep_nonneg d _ cdfB h5) (ksStep_le_one d _ cdfB hc0 hc1 h3 h4 h6)
  | case4 i j cdfA cdfB d y bs2 c ih =>
    intro hi hj h1 h2 h3 h4 h5 h6
    simp only [ksLoop]
    simp only [List.length_cons] at hj
    obtain ⟨hc0, hc1⟩ := cdf_bounds j nb (by omega)
    exact ih hi (by omega) h1 h2 hc0 hc1
      (ksStep_nonneg d cdfA _ h5) (ksStep_le_one d cdfA _ h1 h2 hc0 hc1 h6)
  | case5 i j cdfA cdfB d =>
    intro hi hj h1 h2 h3 h4 h5 h6
    simp only [ksLoop]
    exact ⟨h5, h6⟩

/-- C5 counterexample: on the code, `ks(a, a)` is not 0 (the loop records
a spurious CDF difference right after advancing only `a` on a tie), and
`ks` is not symmetric: `ks([1,1],[1,2]) = 1` while `ks([1,2],[1,1]) = 1/2`,
and `ks([1],[1]) = 1`. -/
theorem ks_claim_counterexample :
    KolmogorovSmirnovStatistic [1] [1] = 1 ∧
    ¬ KolmogorovSmirnovStatistic [1] [1] = 0 ∧
    KolmogorovSmirnovStatistic [1, 1] [1, 2] = 1 ∧
    KolmogorovSmirnovStatistic [1, 2] [1, 1] = 1 / 2 ∧
    ¬ KolmogorovSmirnovStatistic [1, 1] [1, 2] =
        KolmogorovSmirnovStatistic [1, 2] [1, 1] := by
  norm_num [KolmogorovSmirnovStatistic, ksLoop, ksStep, List.insertionSort,
    List.orderedInsert]

/-- C5 (amended): the KS statistic returns 1 when either sample is empty
and always lies in [0, 1]; it is a deterministic function of its inputs.
The claimed identities `ks(a, a) = 0` and `ks(a, b) = ks(b, a)` do not
hold on the code (see the counterexample): the tie rule advances only
`a`'s pointer and the loop records the CDF difference after every single
step. -/
theorem ks_range_and_empty (a b : List ℚ) :
    KolmogorovSmirnovStatistic [] b = 1 ∧
    KolmogorovSmirnovStatistic a [] = 1 ∧
    0 ≤ KolmogorovSmirnovStatistic a b ∧ KolmogorovSmirnovStatistic a b ≤ 1 := by
  refine ⟨by simp [KolmogorovSmirnovStatistic], by simp [KolmogorovSmirnovStatistic], ?_⟩
  unfold KolmogorovSmirnovStatistic
  split
  · exact ⟨zero_le_one, le_refl 1⟩
  · exact ksLoop_bounds a.length b.length _ _ 0 0 0 0 0
      (by simp [List.length_insertionSort]) (by simp [List.length_insertionSort])
      (le_refl 0) zero_le_one (le_refl 0) zero_le_one (le_refl 0) zero_le_one

theorem calcSize_mem (values : List Int) (x : Int) :
    x ∈ (calculateSizeDistribution values).map Prod.fst ↔ x ∈ values ∧ 0 < x := by
  unfold calculateSizeDistribution
  rw [List.map_map]
  have hid : (Prod.fst ∘ fun sz : Int =>
      (sz, (((values.filter (fun v => decide (0 < v))).count sz : ℚ)) /
        ((values.filter (fun v => decide (0 < v))).length : ℚ))) = id := rfl
  rw [hid, List.map_id]
  rw [List.Perm.mem_iff (List.perm_insertionSort _ _)]
  rw [List.mem_dedup, List.mem_filter]
  simp

theorem calcSize_sorted (values : List Int) :
    List.Sorted (· < ·) ((calculateSizeDistribution values).map Prod.fst) := by
  unfold calculateSizeDistribution
  rw [List.map_map]
  have hid : (Prod.fst ∘ fun sz : Int =>
      (sz, (((values.filter (fun v => decide (0 < v))).count sz : ℚ)) /
        ((values.filter (fun v => decide (0 < v))).length : ℚ))) = id := rfl
  rw [hid, List.map_id]
  have hs : List.Sorted (· ≤ ·)
      (((values.filter (fun v => decide (0 < v))).dedup).insertionSort (· ≤ ·)) :=
    List.sorted_insertionSort _ _
  have hn : (((values.filter (fun v => decide (0 < v))).dedup).insertionSort (· ≤ ·)).Nodup :=
    ((List.perm_insertionSort _ _).nodup_iff).mpr (List.nodup_dedup _)
  exact (hs.and hn).imp fun hab => lt_of_le_of_ne hab.1 hab.2

theorem calcSize_weights (values : List Int) :
    ∀ q ∈ calculateSizeDistribution values,
      q.2 = ((values.filter (fun v => decide (0 < v))).count q.1 : ℚ) /
        ((values.filter (fun v => decide (0 < v))).length : ℚ) := by
  intro q hq
  unfold calculateSizeDistribution at hq
  rw [List.mem_map] at hq
  obtain ⟨sz, _, rfl⟩ := hq
  rfl

theorem calcSize_sum (values : List Int) (h : ∃ v ∈ values, 0 < v) :
    ((calculateSizeDistribution values).map Prod.snd).sum = 1 := by
  have hne : values.filter (fun v => decide (0 < v)) ≠ [] := by
    obtain ⟨v, hv, hv0⟩ := h
    exact List.ne_nil_of_mem (List.mem_filter.mpr ⟨hv, by simpa using hv0⟩)
  have hlen : 0 < (values.filter (fun v => decide (0 < v))).length :=
    List.length_pos.mpr hne
  have hlenQ : ((values.filter (fun v => decide (0 < v))).length : ℚ) ≠ 0 :=
    Nat.cast_ne_zero.mpr (by omega)
  unfold calculateSizeDistribution
  rw [List.map_map]
  have hcomp : (Prod.snd ∘ fun sz : Int =>
      (sz, (((values.filter (fun v => decide (0 < v))).count sz : ℚ)) /
        ((values.filter (fun v => decide (0 < v))).length : ℚ))) =
      fun sz : Int => (((values.filter (fun v => decide (0 < v))).count sz : ℚ)) /
        ((values.filter (fun v => decide (0 < v))).length : ℚ) := rfl
  rw [hcomp]
  rw [List.Perm.sum_eq ((List.perm_insertionSort _ _).map _)]
  simp only [div_eq_mul_inv]
  rw [List.sum_map_mul_right]
  have hcast : ((values.filter (fun v => decide (0 < v))).dedup.map
      (fun sz : Int => (((values.filter (fun v => decide (0 < v))).count sz : Nat) : ℚ))).sum =
      ((((values.filter (fun v => decide (0 < v))).dedup.map
        (fun sz : Int => (values.filter (fun v => decide (0 < v))).count sz)).sum : Nat) : ℚ) := by
    rw [Nat.cast_list_sum, List.map_map]
    rfl
  rw [hcast, List.sum_map_count_dedup_eq_length]
  exact mul_inv_cancel₀ hlenQ

/-- C6 counterexample: on the non-empty size list `[0]` (no positive
sample) CreateProfileFromObservations succeeds with an empty packet-size
distribution, so the weights sum to 0, not 1. -/
theorem observation_profile_counterexample :
    CreateProfileFromObservations "x" [0] [1] =
      Except.ok ("x", [], [(1, 1)]) ∧
    calculateSizeDistribution [0] = [] ∧
    ¬ ((calculateSizeDistribution [0]).map Prod.snd).sum = 1 := by
  refine ⟨?_, ?_, ?_⟩
  · norm_num [CreateProfileFromObservations, calculateSizeDistribution,
      calculateDelayDistribution, List.insertionSort, List.orderedInsert,
      List.dedup, List.count]
  · norm_num [calculateSizeDistribution, List.insertionSort, List.dedup]
  · norm_num [calculateSizeDistribution, List.insertionSort, List.dedup]

/-- C6 (amended): CreateProfileFromObservations fails exactly when the
size list or the delay list is empty; on success the packet-size buckets
enumerate exactly the distinct positive sizes sorted strictly ascending,
each weight is its count divided by the number of positive samples, and
the weights sum to 1 provided at least one size is positive (with no
positive size the distribution is empty and the weights sum to 0). -/
theorem observation_profile_amended (name : String) (sizes delays : List Int) :
    (CreateProfileFromObservations name sizes delays =
        Except.error "insufficient samples" ↔ sizes = [] ∨ delays = []) ∧
    ∀ prof, CreateProfileFromObservations name sizes delays = Except.ok prof →
      List.Sorted (· < ·) (prof.2.1.map Prod.fst) ∧
      (∀ x : Int, x ∈ prof.2.1.map Prod.fst ↔ x ∈ sizes ∧ 0 < x) ∧
      (∀ q ∈ prof.2.1,
        q.2 = ((sizes.filter (fun v => decide (0 < v))).count q.1 : ℚ) /
          ((sizes.filter (fun v => decide (0 < v))).length : ℚ)) ∧
      ((∃ v ∈ sizes, 0 < v) → (prof.2.1.map Prod.snd).sum = 1) := by
  constructor
  · unfold CreateProfileFromObservations
    split
    · rename_i hcond
      simp only [List.length_eq_zero] at hcond
      simp [hcond]
    · rename_i hcond
      simp only [List.length_eq_zero] at hcond
      simp [hcond]
  · intro prof hok
    unfold CreateProfileFromObservations at hok
    split at hok
    · exact absurd hok (by simp)
    · rw [Except.ok.injEq] at hok
      subst hok
      exact ⟨calcSize_sorted sizes, calcSize_mem sizes, calcSize_weights sizes,
        calcSize_sum sizes⟩

theorem observation_profile_amended_witness :
    ((calculateSizeDistribution [2, 1, 2]).map Prod.snd).sum = 1 ∧
    List.Sorted (· < ·) ((calculateSizeDistribution [2, 1, 2]).map Prod.fst) :=
  ⟨(((observation_profile_amended "x" [2, 1, 2] [1]).2
      ("x", calculateSizeDistribution [2, 1, 2], calculateDelayDistribution [1])
      rfl).2.2.2) ⟨2, by decide, by decide⟩,
   ((observation_profile_amended "x" [2, 1, 2] [1]).2
      ("x", calculateSizeDistribution [2, 1, 2], calculateDelayDistribution [1])
      rfl).1⟩

theorem take_min_length (l : Bytes) (t : Nat) : l.take (min l.length t) = l.take t := by
  rcases le_total t l.length with h | h
  · rw [min_eq_right h]
  · rw [min_eq_left h, List.take_length, List.take_of_length_le h]

theorem drop_min_length (l : Bytes) (t : Nat) : l.drop (min l.length t) = l.drop t := by
  rcases le_total t l.length with h | h
  · rw [min_eq_right h]
  · rw [min_eq_left h, List.drop_length, List.drop_eq_nil_of_le h]

theorem chunksOf_length (t : Nat) (ht : 0 < t) (data : Bytes) :
    (chunksOf t data).length = (data.length + t - 1) / t := by
  induction data using chunksOf.induct t with
  | case1 data hd =>
    rw [chunksOf, dif_pos hd, hd]
    exact (Nat.div_eq_of_lt (by omega)).symm
  | case2 data hd ht0 =>
    omega
  | case3 data hd ht0 ih =>
    rw [chunksOf, dif_neg hd, dif_neg ht0]
    rw [List.length_cons, ih, List.length_drop]
    rcases le_or_lt data.length t with hle | hlt
    · have h1 : data.length - t = 0 := by omega
      rw [h1]
      have h2 : (0 + t - 1) / t = 0 := Nat.div_eq_of_lt (by omega)
      rw [h2]
      have h3 : (data.length + t - 1) / t = 1 := by
        apply Nat.div_eq_of_lt_le
        · omega
        · omega
      rw [h3]
    · have h1 : data.length - t + t - 1 = data.length - 1 + t - t := by omega
      have h2 : data.length + t - 1 = data.length - 1 + t := by omega
      rw [h1, h2]
      have h3 : data.length - 1 + t - t = data.length - 1 := by omega
      rw [h3, Nat.add_div_right _ ht]

theorem chunksOf_flatten (t : Nat) (ht : 0 < t) (data : Bytes) :
    (chunksOf t data).flatten = data := by
  induction data using chunksOf.induct t with
  | case1 data hd =>
    rw [chunksOf, dif_pos hd, List.eq_nil_of_length_eq_zero hd]
    rfl
  | case2 data hd ht0 =>
    omega
  | case3 data hd ht0 ih =>
    rw [chunksOf, dif_neg hd, dif_neg ht0]
    rw [List.flatten_cons, ih, List.take_append_drop]

theorem morphTraceSpec_data_frames (t d : Nat) (data : Bytes) :
    (morphTraceSpec t d data).countP (fun p => p.1 == FrameTypeData) =
      (chunksOf t data).length ∧
    (morphTraceSpec t d data).filterMap
      (fun p => if p.1 == FrameTypeData then some p.2 else none) =
      chunksOf t data := by
  unfold morphTraceSpec
  induction chunksOf t data with
  | nil => simp
  | cons c cs ih =>
    obtain ⟨ih1, ih2⟩ := ih
    rcases Nat.eq_zero_or_pos d with hd | hd
    · simp [hd, List.flatMap_cons, List.countP_append, List.countP_cons,
        List.filterMap_append, List.filterMap_cons, FrameTypeData, FrameTypePadding,
        FrameTypeTiming] at ih1 ih2 ⊢
      exact ⟨ih1, ih2⟩
    · simp [hd, List.flatMap_cons, List.countP_append,
        List.countP_cons, List.filterMap_append, List.filterMap_cons, FrameTypeData,
        FrameTypePadding, FrameTypeTiming] at ih1 ih2 ⊢
      exact ⟨ih1, ih2⟩

theorem morphTraceSpec_cons (t d : Nat) (ht : ¬ t = 0) (data : Bytes)
    (hne : ¬ data.length = 0) :
    morphTraceSpec t d data =
      (FrameTypeData, data.take t) :: (FrameTypePadding, be16 t) ::
        ((if 0 < d then [(FrameTypeTiming, be64 (d / 1000000))] else []) ++
          morphTraceSpec t d (data.drop t)) := by
  unfold morphTraceSpec
  rw [chunksOf, dif_neg hne, dif_neg ht, List.flatMap_cons]
  simp [List.cons_append]

theorem SendPaddingControl_ok (s : Session) (t : Nat)
    (ht : ¬ (t = 0 ∨ 65535 < t))
    (hA : (s.aead.Seal (makeNonce s.writeNonce) (be16 t)).length ≤ maxFramePayloadSize) :
    SendPaddingControl s t = Except.ok
      (be16 (s.aead.Seal (makeNonce s.writeNonce) (be16 t)).length ++
          [FrameTypePadding] ++ s.aead.Seal (makeNonce s.writeNonce) (be16 t),
        { s with writeNonce := s.writeNonce + 1 }) := by
  unfold SendPaddingControl
  rw [if_neg ht, WriteFrame_ok s FrameTypePadding (be16 t) hA]

theorem SendTimingControl_ok (s : Session) (d : Nat) (hd : ¬ d = 0)
    (hA : (s.aead.Seal (makeNonce s.writeNonce) (be64 (d / 1000000))).length ≤
      maxFramePayloadSize) :
    SendTimingControl s d = Except.ok
      (be16 (s.aead.Seal (makeNonce s.writeNonce) (be64 (d / 1000000))).length ++
          [FrameTypeTiming] ++ s.aead.Seal (makeNonce s.writeNonce) (be64 (d / 1000000)),
        { s with writeNonce := s.writeNonce + 1 }) := by
  unfold SendTimingControl
  rw [if_neg hd, WriteFrame_ok s FrameTypeTiming (be64 (d / 1000000)) hA]

theorem morphTraceSpec_nil (t d : Nat) : morphTraceSpec t d [] = [] := by
  unfold morphTraceSpec
  rw [chunksOf, dif_pos (show ([] : Bytes).length = 0 from rfl)]
  rfl

theorem writeMorphLoop_const (t d : Nat) (ht : ¬ t = 0) (ht2 : t + 16 ≤ 65535)
    (sizes delays : Nat → Nat) (hs : ∀ m, sizes m = t) (hdl : ∀ m, delays m = d) :
    ∀ (n : Nat) (remaining : Bytes), remaining.length ≤ n →
      ∀ (s : Session) (k : Nat), s.aead.SealLen →
      ∃ s2, writeMorphLoop s sizes delays k remaining =
        Except.ok (morphTraceSpec t d remaining, s2) ∧ s2.aead = s.aead := by
  intro n
  induction n with
  | zero =>
    intro remaining hlen s k _
    have hnil : remaining = [] := List.eq_nil_of_length_eq_zero (by omega)
    subst hnil
    refine ⟨s, ?_, rfl⟩
    rw [writeMorphLoop, dif_pos (show ([] : Bytes).length = 0 from rfl), morphTraceSpec_nil]
  | succ n ih =>
    intro remaining hlen s k hA
    by_cases hrem : remaining.length = 0
    · have hnil : remaining = [] := List.eq_nil_of_length_eq_zero hrem
      subst hnil
      refine ⟨s, ?_, rfl⟩
      rw [writeMorphLoop, dif_pos (show ([] : Bytes).length = 0 from rfl), morphTraceSpec_nil]
    · have htpos : 0 < t := by omega
      have hseal1 : (s.aead.Seal (makeNonce s.writeNonce)
          (remaining.take (min remaining.length t))).length ≤ maxFramePayloadSize := by
        rw [hA]
        have : (remaining.take (min remaining.length t)).length ≤ t := by
          rw [List.length_take]
          omega
        unfold maxFramePayloadSize
        omega
      have htt : ¬ (t = 0 ∨ 65535 < t) := by
        rw [not_or]
        omega
      have hseal2 : (s.aead.Seal (makeNonce (s.writeNonce + 1)) (be16 t)).length ≤
          maxFramePayloadSize := by
        rw [hA]
        simp [be16, maxFramePayloadSize]
      rw [writeMorphLoop, dif_neg hrem, hs k, hdl k, if_neg ht]
      rw [WriteFrame_ok s FrameTypeData (remaining.take (min remaining.length t)) hseal1]
      dsimp only
      rw [SendPaddingControl_ok { s with writeNonce := s.writeNonce + 1 } t htt hseal2]
      dsimp only
      have hdrople : (remaining.drop (min remaining.length t)).length ≤ n := by
        rw [List.length_drop]
        omega
      by_cases hd : 0 < d
      · rw [if_pos hd]
        have hseal3 : (s.aead.Seal (makeNonce (s.writeNonce + 2))
            (be64 (d / 1000000))).length ≤ maxFramePayloadSize := by
          rw [hA]
          simp [be64, maxFramePayloadSize]
        rw [SendTimingControl_ok
          { s with writeNonce := s.writeNonce + 1 + 1 } d (by omega) hseal3]
        dsimp only
        obtain ⟨s4, hloop, haead⟩ := ih (remaining.drop (min remaining.length t))
          hdrople { s with writeNonce := s.writeNonce + 1 + 1 + 1 } (k + 1) hA
        rw [hloop]
        dsimp only
        refine ⟨s4, ?_, haead⟩
        rw [take_min_length, drop_min_length,
          morphTraceSpec_cons t d ht remaining hrem, if_pos hd]
        rfl
      · rw [if_neg hd]
        obtain ⟨s4, hloop, haead⟩ := ih (remaining.drop (min remaining.length t))
          hdrople { s with writeNonce := s.writeNonce + 1 + 1 } (k + 1) hA
        rw [hloop]
        dsimp only
        refine ⟨s4, ?_, haead⟩
        rw [take_min_length, drop_min_length,
          morphTraceSpec_cons t d ht remaining hrem, if_neg hd]
        rfl

/-- C3: with a profile present and a constant sampled packet size `t`
(16 ≤ t+16 ≤ 65535) and constant sampled delay `d`, morphing a non-empty
buffer emits exactly the spec trace: ceil(|data|/t) DATA frames, each
carrying the next chunk of at most `t` bytes and followed by one PADDING
frame with `t` as u16 BE, plus one TIMING frame with the delay in
milliseconds as u64 BE exactly when `d` is positive; the DATA payloads
concatenate back to the input. -/
theorem morphing_chunking (s : Session) (hA : s.aead.SealLen) (t d : Nat)
    (ht : 0 < t) (ht2 : t + 16 ≤ 65535) (data : Bytes) (hne : data ≠ []) :
    (∃ s2, WriteFrameWithMorphing s true (fun _ => t) (fun _ => d) FrameTypeData data =
        Except.ok (morphTraceSpec t d data, s2)) ∧
    (morphTraceSpec t d data).countP (fun p => p.1 == FrameTypeData) =
      (data.length + t - 1) / t ∧
    ((morphTraceSpec t d data).filterMap
      (fun p => if p.1 == FrameTypeData then some p.2 else none)).flatten = data := by
  refine ⟨?_, ?_, ?_⟩
  · obtain ⟨s2, hloop, _⟩ := writeMorphLoop_const t d (by omega) ht2
      (fun _ => t) (fun _ => d) (fun _ => rfl) (fun _ => rfl)
      data.length data (le_refl _) s 0 hA
    refine ⟨s2, ?_⟩
    unfold WriteFrameWithMorphing
    rw [if_neg (by simp)]
    exact hloop
  · rw [(morphTraceSpec_data_frames t d data).1, chunksOf_length t ht data]
  · rw [(morphTraceSpec_data_frames t d data).2, chunksOf_flatten t ht data]

theorem morphing_chunking_witness :
    (∃ s2, WriteFrameWithMorphing (NewSession demoAEAD) true (fun _ => 2) (fun _ => 0)
        FrameTypeData [1, 2, 3] = Except.ok (morphTraceSpec 2 0 [1, 2, 3], s2)) ∧
    (morphTraceSpec 2 0 [1, 2, 3]).countP (fun p => p.1 == FrameTypeData) = 2 ∧
    ((morphTraceSpec 2 0 [1, 2, 3]).filterMap
      (fun p => if p.1 == FrameTypeData then some p.2 else none)).flatten = [1, 2, 3] :=
  morphing_chunking (NewSession demoAEAD) demoAEAD_SealLen 2 0 (by decide) (by decide)
    [1, 2, 3] (by decide)

end Reflex
